import Mathlib

/-!
# Verification of the repo-issue-ranker program

A shallow embedding of `src/main.rs` of `baraich/repo-issue-ranker`.

The program fetches the open issues of a fixed GitHub repository, filters
out pull requests, fetches the reactions of each remaining issue, folds the
reactions into a per-issue signed score (`+1` for a "+1" reaction, `-1` for
a "-1" reaction, `0` otherwise, accumulated in a `HashMap<usize, i32>`),
sorts the `(number, score)` pairs by descending score and prints a 1-based
ranking.

Modelling decisions:
* The network is a `World` value: the response of the issues endpoint and,
  per issue number, the response of the reactions endpoint.  A response is
  either a transport error (`reqwest::Error`) or a status code, an optional
  `x-ratelimit-reset` header value and a body.  JSON decoding is modelled
  by carrying the decoded value directly: `none` stands for a body that
  fails to decode into the expected shape (serde error).
* Rust panics (`expect`) are modelled by the `Res.panic` constructor, which
  carries the console output and the list of issued HTTP requests at the
  moment of the panic, plus the panic message.
* Console output is a list of `OutLine` events; `OutLine.render` gives the
  exact printed text.  `usize` becomes `Nat`, `i32`/`i64` become `Int`
  (reaction counts are far below any overflow boundary).
* The order in which `HashMap::iter` yields its entries is not specified
  (and in Rust it is randomized per process); `mainRun` therefore takes a
  `shuffle` parameter standing for that iteration order, and theorems
  quantify over lists that are permutations of the accumulated entries.
* `Utc::now()` is the field `World.now`, in whole Unix seconds (the header
  granularity); `chrono` durations use Rust `i64` division, i.e. rounding
  toward zero (`Int.tdiv`).
-/

/-- Rust `struct Issue { number: usize, title: String, pull_request: Option<PullRequest> }`.
`PullRequest` is an empty struct, so any present JSON sub-object decodes to
it regardless of its content; it is modelled by `Unit`. -/
structure Issue where
  number : Nat
  title : String
  pull_request : Option Unit
deriving DecidableEq, Repr

/-- Rust `struct IssueReaction { content: String }`. -/
structure IssueReaction where
  content : String
deriving DecidableEq, Repr

/-- One printed console line, as an event; `OutLine.render` gives the text. -/
inductive OutLine where
  /-- `println!("Exited with HTTP status code: {:?}", res.status())` -/
  | exited (status : Nat)
  /-- `println!("Please try again later {}!", msg)` -/
  | please (msg : String)
  /-- `println!("Fetched {:?} issues!", issues.len())` -/
  | fetched (count : Nat)
  /-- `println!("Gathering reactions for issue: {:?}", issue.number)` -/
  | gathering (number : Nat)
  /-- `println!()` -/
  | blank
  /-- `println!("#{:?} – {:?} with {:?} upvotes!", position, issue.0, issue.1)` -/
  | rank (position : Nat) (number : Nat) (score : Int)
deriving DecidableEq, Repr

/-- The exact text of a printed line. -/
def OutLine.render : OutLine → String
  | .exited status => s!"Exited with HTTP status code: {status}"
  | .please msg => s!"Please try again later {msg}!"
  | .fetched count => s!"Fetched {count} issues!"
  | .gathering number => s!"Gathering reactions for issue: {number}"
  | .blank => ""
  | .rank position number score => s!"#{position} – {number} with {score} upvotes!"

/-- Is this line one of the final ranking lines? -/
def OutLine.isRank : OutLine → Bool
  | .rank _ _ _ => true
  | _ => false

/-- The `x-ratelimit-reset` header value: `to_str()` either fails
(non-visible-ASCII bytes, `HeaderVal.invalid`) or yields a string. -/
inductive HeaderVal where
  | invalid
  | val (s : String)
deriving DecidableEq, Repr

/-- Outcome of `client.get(url).send().await` for one endpoint, with the
body already decoded by type: `err` is a transport-level `reqwest::Error`;
otherwise a status code, the optional `x-ratelimit-reset` header and a body
(`none` = the body does not decode into the expected shape). -/
inductive SendResult (β : Type) where
  | err
  | ok (status : Nat) (rateLimitReset : Option HeaderVal) (body : Option β)
deriving DecidableEq

/-- Result of a fragment of the program: normal completion or a Rust panic,
in both cases with the console lines printed and the HTTP request URLs
issued so far by that fragment. -/
inductive Res (α : Type) where
  | ok (out : List OutLine) (reqs : List String) (val : α)
  | panic (out : List OutLine) (reqs : List String) (msg : String)
deriving DecidableEq

/-- Console output of a fragment, including everything printed before a panic. -/
def Res.output : Res α → List OutLine
  | .ok out _ _ => out
  | .panic out _ _ => out

/-- HTTP request URLs issued by a fragment. -/
def Res.reqs : Res α → List String
  | .ok _ reqs _ => reqs
  | .panic _ reqs _ => reqs

/-- The returned value, if the fragment did not panic. -/
def Res.value : Res α → Option α
  | .ok _ _ v => some v
  | .panic _ _ _ => none

/-- Did the fragment panic? -/
def Res.isPanic : Res α → Bool
  | .ok _ _ _ => false
  | .panic _ _ _ => true

/-- The captured external world of one run: the environment variable
`GITHUB_TOKEN`, the current Unix time in seconds, and the two endpoints'
responses (the reactions endpoint indexed by issue number). -/
structure World where
  token : Option String
  now : Int
  issuesResp : SendResult (List Issue)
  reactionsResp : Nat → SendResult (List IssueReaction)

/-- `fn get_api_url(owner: &str, repo: &str) -> String`. -/
def get_api_url (owner repo : String) : String :=
  s!"https://api.github.com/repos/{owner}/{repo}/issues?state=open&per_page=100"

/-- The URL built inside `get_reactions`. -/
def reactions_url (owner repo : String) (number : Nat) : String :=
  s!"https://api.github.com/repos/{owner}/{repo}/issues/{number}/reactions"

/-- `reqwest::StatusCode::is_success()`: the 2xx range. -/
def statusIsSuccess (status : Nat) : Bool :=
  200 ≤ status && status ≤ 299

/-- Models Rust `str::parse::<i64>`: an optional sign followed by at least
one decimal digit, rejecting values outside the `i64` range. -/
def parseI64 (s : String) : Option Int :=
  let signAndDigits : Int × List Char :=
    match s.data with
    | '-' :: rest => (-1, rest)
    | '+' :: rest => (1, rest)
    | other => (1, other)
  let digits := signAndDigits.2
  if digits.isEmpty then none
  else if digits.all Char.isDigit then
    let magnitude : Nat := digits.foldl (fun acc c => acc * 10 + (c.toNat - 48)) 0
    let value : Int := signAndDigits.1 * magnitude
    if -(2 ^ 63) ≤ value && value < 2 ^ 63 then some value else none
  else none

/-- Smallest Unix second representable by a chrono `DateTime<Utc>`
(`DateTime::<Utc>::MIN_UTC`). -/
def chronoMinTimestamp : Int := -8334601228800

/-- Largest Unix second representable by a chrono `DateTime<Utc>`
(`DateTime::<Utc>::MAX_UTC`). -/
def chronoMaxTimestamp : Int := 8210266876799

/-- Does `Utc.timestamp_opt(ts, 0).single()` yield `Some`? -/
def tsInChronoRange (ts : Int) : Bool :=
  chronoMinTimestamp ≤ ts && ts ≤ chronoMaxTimestamp

/-- The `"after {} minute(s)"` message. -/
def minutesMsg (m : Int) : String := s!"after {m} minute(s)"

/-- The `"after {} second(s)"` message. -/
def secondsMsg (s : Int) : String := s!"after {s} second(s)"

/-- The wait estimate computed in `get_issues` from the parsed reset
timestamp: `awaiting_period = future_timestamp - current_time`; minutes if
`num_minutes() > 0` (Rust `i64` division truncates toward zero), else
seconds. -/
def waitEstimate (now ts : Int) : String :=
  let awaiting := ts - now
  let minutes := awaiting.tdiv 60
  if 0 < minutes then minutesMsg minutes else secondsMsg awaiting

/-- `async fn send_request(url: &str)`: reads `GITHUB_TOKEN` from the
environment (panicking with `Missing GIHHUB_TOKEN` if absent, before any
request is sent), then issues the GET request.  The response for this URL
is supplied by the caller from the `World`. -/
def send_request (token : Option String) (url : String) (resp : SendResult β) :
    Res (SendResult β) :=
  match token with
  | none => .panic [] [] "Missing GIHHUB_TOKEN"
  | some _ => .ok [] [url] resp

/-- The non-2xx branch of `get_issues`: prints the status line, then builds
the `Please try again later …!` line from the `x-ratelimit-reset` header —
panicking if the header is absent (`expect`), if its string value does not
parse as an `i64` (`expect`), or if the timestamp is outside chrono's range
(`expect("Invalid timestamp")`) — and returns an empty issue list. -/
def issuesFailureResult (now : Int) (status : Nat) (rl : Option HeaderVal)
    (reqs : List String) : Res (List Issue) :=
  match rl with
  | none => .panic [.exited status] reqs "Unable to retrive the unix time remaining"
  | some .invalid => .ok [.exited status, .please "in sometime"] reqs []
  | some (.val s) =>
    match parseI64 s with
    | none => .panic [.exited status] reqs "Failed to convert timestamp to number"
    | some ts =>
      if tsInChronoRange ts then
        .ok [.exited status, .please (waitEstimate now ts)] reqs []
      else
        .panic [.exited status] reqs "Invalid timestamp"

/-- `async fn get_issues(owner: &str, repo: &str) -> Vec<Issue>`:
2xx → decode the body (panicking on decode failure) and drop every issue
whose `pull_request` field is present; non-2xx → the rate-limit branch;
transport error → empty list. -/
def get_issues (w : World) (owner repo : String) : Res (List Issue) :=
  match send_request w.token (get_api_url owner repo) w.issuesResp with
  | .panic out reqs msg => .panic out reqs msg
  | .ok _ reqs resp =>
    match resp with
    | .err => .ok [] reqs []
    | .ok status rl body =>
      if statusIsSuccess status then
        match body with
        | none => .panic [] reqs "Something went wrong while parsing."
        | some issues => .ok [] reqs (issues.filter fun i => i.pull_request.isNone)
      else
        issuesFailureResult w.now status rl reqs

/-- `async fn get_reactions(issue: &Issue, owner: &str, repo: &str) -> Vec<IssueReaction>`:
2xx → decode the body (panicking on decode failure); any other outcome
(non-2xx status or transport error) → empty list, with nothing printed. -/
def get_reactions (token : Option String) (issue : Issue) (owner repo : String)
    (resp : SendResult (List IssueReaction)) : Res (List IssueReaction) :=
  match send_request token (reactions_url owner repo issue.number) resp with
  | .panic out reqs msg => .panic out reqs msg
  | .ok _ reqs r =>
    match r with
    | .err => .ok [] reqs []
    | .ok status _ body =>
      if statusIsSuccess status then
        match body with
        | none => .panic [] reqs "Something went wrong while parsting issue reactions."
        | some reactions => .ok [] reqs reactions
      else
        .ok [] reqs []

/-- The weight of one reaction: `match content { "+1" => 1, "-1" => -1, _ => 0 }`. -/
def reactionWeight (content : String) : Int :=
  if content = "+1" then 1 else if content = "-1" then -1 else 0

/-- `map.entry(number).or_insert(0); *count += w` on the score map, which is
modelled as an association list with (by construction) distinct keys: add
`w` to the entry of `k`, first inserting `0` if `k` is absent. -/
def mapInsertAdd : List (Nat × Int) → Nat → Int → List (Nat × Int)
  | [], k, w => [(k, w)]
  | (key, v) :: rest, k, w =>
    if k = key then (key, v + w) :: rest else (key, v) :: mapInsertAdd rest k w

/-- `HashMap::get`, as a lookup in the association list. -/
def mapLookup : List (Nat × Int) → Nat → Option Int
  | [], _ => none
  | (key, v) :: rest, n => if n = key then some v else mapLookup rest n

/-- The inner `for reaction in &reactions` loop for one issue number. -/
def foldReactions (m : List (Nat × Int)) (number : Nat)
    (reactions : List IssueReaction) : List (Nat × Int) :=
  reactions.foldl (fun acc r => mapInsertAdd acc number (reactionWeight r.content)) m

/-- The whole aggregation of `main`: fold every issue's fetched reaction
list (given by `fetched`, indexed by issue number) into the score map. -/
def buildMap (issues : List Issue) (fetched : Nat → List IssueReaction) :
    List (Nat × Int) :=
  issues.foldl (fun m i => foldReactions m i.number (fetched i.number)) []

/-- The sum of the weights of a reaction list. -/
def scoreOfReactions (reactions : List IssueReaction) : Int :=
  (reactions.map fun r => reactionWeight r.content).sum

/-- Insert an entry into a list that is sorted by non-increasing score,
after every entry with a greater-or-equal score (the placement a stable
sort gives to a later element). -/
def insertDesc (x : Nat × Int) : List (Nat × Int) → List (Nat × Int)
  | [] => [x]
  | y :: ys => if y.2 ≤ x.2 then x :: y :: ys else y :: insertDesc x ys

/-- `map_vec.sort_by(|a, b| b.1.cmp(a.1))`: Rust `sort_by` is a stable
sort, so it is modelled by stable insertion sort by non-increasing score. -/
def sortDesc (l : List (Nat × Int)) : List (Nat × Int) :=
  l.foldr insertDesc []

/-- The final printing loop: `position += 1` then one `rank` line per entry. -/
def rankLines (position : Nat) : List (Nat × Int) → List OutLine
  | [] => []
  | e :: rest => OutLine.rank position e.1 e.2 :: rankLines (position + 1) rest

/-- The `for issue in &issues` loop of `main`: print the progress line,
fetch the issue's reactions (propagating a panic together with the output
and requests accumulated so far) and fold them into the score map. -/
def processIssues (w : World) (owner repo : String) :
    List Issue → List OutLine → List String → List (Nat × Int) →
    Res (List (Nat × Int))
  | [], out, reqs, m => .ok out reqs m
  | i :: rest, out, reqs, m =>
    let out2 := out ++ [OutLine.gathering i.number]
    match get_reactions w.token i owner repo (w.reactionsResp i.number) with
    | .panic o r msg => .panic (out2 ++ o) (reqs ++ r) msg
    | .ok o r reactions =>
      processIssues w owner repo rest (out2 ++ o) (reqs ++ r)
        (foldReactions m i.number reactions)

/-- `async fn main()`: list the issues of `angular/angular`, print the
count, loop over the issues accumulating the score map, then sort the
map's entries by descending score and print the ranking.  `shuffle` stands
for the unspecified (per-process randomized) order in which
`HashMap::iter` yields the accumulated entries. -/
def mainRun (w : World) (shuffle : List (Nat × Int) → List (Nat × Int)) : Res Unit :=
  match get_issues w "angular" "angular" with
  | .panic out reqs msg => .panic out reqs msg
  | .ok out reqs issues =>
    let out2 := out ++ [OutLine.fetched issues.length]
    match processIssues w "angular" "angular" issues out2 reqs [] with
    | .panic o r msg => .panic o r msg
    | .ok o r m =>
      .ok (o ++ [OutLine.blank] ++ rankLines 1 (sortDesc (shuffle m))) r ()

/-- The issues loop with an explicit starting map (generalisation of
`buildMap` used for induction): `buildMap issues f = foldIssues f issues []`. -/
def foldIssues (fetched : Nat → List IssueReaction) (issues : List Issue)
    (m : List (Nat × Int)) : List (Nat × Int) :=
  issues.foldl (fun acc i => foldReactions acc i.number (fetched i.number)) m

/-! ### Concrete captured worlds and inputs used by witnesses and counterexamples -/

/-- Two plain issues whose reactions give scores 1 and 1 (a tie). -/
def issuesTie : List Issue := [⟨1, "alpha", none⟩, ⟨2, "beta", none⟩]

/-- Every issue gets a single "+1" reaction. -/
def reactionsOnePlus : Nat → List IssueReaction := fun _ => [⟨"+1"⟩]

/-- Captured world for the tie scenario: both issues score 1. -/
def wTie : World :=
  { token := some "token", now := 0,
    issuesResp := .ok 200 none (some issuesTie),
    reactionsResp := fun _ => .ok 200 none (some [⟨"+1"⟩]) }

/-- World with the credential absent from the environment. -/
def wNoToken : World :=
  { token := none, now := 0,
    issuesResp := .ok 200 none (some []),
    reactionsResp := fun _ => .err }

/-- World whose issues request is rejected (403) with no
`x-ratelimit-reset` header on the response. -/
def wNoHeader : World :=
  { token := some "token", now := 0,
    issuesResp := .ok 403 none (some []),
    reactionsResp := fun _ => .err }

/-- World whose issues request fails at the transport level. -/
def wTransportErr : World :=
  { token := some "token", now := 0,
    issuesResp := .err,
    reactionsResp := fun _ => .err }

/-- World with one clean issue and one pull request in the issues body. -/
def wWithPR : World :=
  { token := some "token", now := 0,
    issuesResp := .ok 200 none (some [⟨1, "alpha", none⟩, ⟨2, "beta", some ()⟩]),
    reactionsResp := fun _ => .err }

/-- World where the single issue's reactions request is rejected with a
500 status and no rate-limit header. -/
def wReactFail : World :=
  { token := some "token", now := 0,
    issuesResp := .ok 200 none (some [⟨1, "alpha", none⟩]),
    reactionsResp := fun _ => .ok 500 none (some []) }

/-- World where the single issue's reactions request is rejected with a
403 status and the `x-ratelimit-reset` header present and well formed. -/
def wReactRateLimited : World :=
  { token := some "token", now := 0,
    issuesResp := .ok 200 none (some [⟨1, "alpha", none⟩]),
    reactionsResp := fun _ => .ok 403 (some (.val "9999")) (some []) }

/-- World whose issues request is rejected (403) with a well-formed
`x-ratelimit-reset` header two minutes ahead of `now`. -/
def wRateLimited : World :=
  { token := some "token", now := 0,
    issuesResp := .ok 403 (some (.val "120")) (some []),
    reactionsResp := fun _ => .err }

/-- World for ranking witnesses: issue 1 scores 1, issue 2 scores 2. -/
def wScores : World :=
  { token := some "token", now := 0,
    issuesResp := .ok 200 none (some issuesTie),
    reactionsResp := fun n =>
      if n = 1 then .ok 200 none (some [⟨"+1"⟩, ⟨"+1"⟩, ⟨"-1"⟩])
      else .ok 200 none (some [⟨"+1"⟩, ⟨"+1"⟩]) }

/-- Issues for the aggregation witnesses. -/
def issuesAgg : List Issue := [⟨1, "alpha", none⟩, ⟨2, "beta", none⟩, ⟨3, "gamma", none⟩]

/-- Fetched reactions for the aggregation witnesses: issue 1 has a mixed
list, issue 2 has none, issue 3 has reactions cancelling to zero. -/
def reactionsAgg : Nat → List IssueReaction := fun n =>
  if n = 1 then [⟨"+1"⟩, ⟨"laugh"⟩, ⟨"-1"⟩, ⟨"+1"⟩]
  else if n = 2 then []
  else [⟨"+1"⟩, ⟨"heart"⟩, ⟨"-1"⟩]

/-- Issues for the duplicate-number witness: number 1 appears twice. -/
def issuesDup : List Issue :=
  [⟨1, "alpha", none⟩, ⟨1, "alpha again", none⟩, ⟨2, "beta", none⟩, ⟨4, "delta", none⟩]

/-- Fetched reactions for the duplicate-number witness. -/
def reactionsDup : Nat → List IssueReaction := fun n =>
  if n = 1 then [⟨"+1"⟩]
  else if n = 4 then [⟨"-1"⟩]
  else []

/-! ### Lemmas about the score map -/

theorem mapLookup_mapInsertAdd_self (m : List (Nat × Int)) (k : Nat) (w : Int) :
    mapLookup (mapInsertAdd m k w) k = some ((mapLookup m k).getD 0 + w) := by
  induction m with
  | nil => simp [mapInsertAdd, mapLookup]
  | cons e rest ih =>
    obtain ⟨key, v⟩ := e
    by_cases h : k = key
    · subst h
      simp [mapInsertAdd, mapLookup]
    · simp [mapInsertAdd, mapLookup, h, ih]

theorem mapLookup_mapInsertAdd_ne (m : List (Nat × Int)) (k n : Nat) (w : Int)
    (h : n ≠ k) : mapLookup (mapInsertAdd m k w) n = mapLookup m n := by
  induction m with
  | nil => simp [mapInsertAdd, mapLookup, h]
  | cons e rest ih =>
    obtain ⟨key, v⟩ := e
    by_cases hk : k = key
    · subst hk
      simp [mapInsertAdd, mapLookup, h]
    · by_cases hn : n = key
      · subst hn
        simp [mapInsertAdd, mapLookup, hk]
      · simp [mapInsertAdd, mapLookup, hk, hn, ih]

theorem mem_keys_mapInsertAdd (m : List (Nat × Int)) (k a : Nat) (w : Int) :
    a ∈ (mapInsertAdd m k w).map Prod.fst ↔ a ∈ m.map Prod.fst ∨ a = k := by
  induction m with
  | nil => simp [mapInsertAdd]
  | cons e rest ih =>
    obtain ⟨key, v⟩ := e
    by_cases hk : k = key
    · subst hk
      simp [mapInsertAdd]
      tauto
    · simp [mapInsertAdd, hk, ih]
      tauto

theorem keys_nodup_mapInsertAdd (m : List (Nat × Int)) (k : Nat) (w : Int)
    (h : (m.map Prod.fst).Nodup) : ((mapInsertAdd m k w).map Prod.fst).Nodup := by
  induction m with
  | nil => simp [mapInsertAdd]
  | cons e rest ih =>
    obtain ⟨key, v⟩ := e
    rw [List.map_cons, List.nodup_cons] at h
    by_cases hk : k = key
    · subst hk
      have heq : mapInsertAdd ((k, v) :: rest) k w = (k, v + w) :: rest := by
        simp [mapInsertAdd]
      rw [heq, List.map_cons, List.nodup_cons]
      exact h
    · have heq : mapInsertAdd ((key, v) :: rest) k w = (key, v) :: mapInsertAdd rest k w := by
        simp [mapInsertAdd, hk]
      rw [heq, List.map_cons, List.nodup_cons]
      constructor
      · intro hmem
        rcases (mem_keys_mapInsertAdd rest k key w).1 hmem with hmem | hmem
        · exact h.1 hmem
        · exact hk hmem.symm
      · exact ih h.2

theorem mapLookup_eq_none_iff (m : List (Nat × Int)) (n : Nat) :
    mapLookup m n = none ↔ n ∉ m.map Prod.fst := by
  induction m with
  | nil => simp [mapLookup]
  | cons e rest ih =>
    obtain ⟨key, v⟩ := e
    by_cases h : n = key
    · subst h
      simp [mapLookup]
    · simp only [mapLookup, if_neg h, List.map_cons, List.mem_cons, ih]
      tauto

theorem mem_of_mapLookup_eq_some (m : List (Nat × Int)) (n : Nat) (v : Int)
    (h : mapLookup m n = some v) : (n, v) ∈ m := by
  induction m with
  | nil => simp [mapLookup] at h
  | cons e rest ih =>
    obtain ⟨key, val⟩ := e
    by_cases hk : n = key
    · subst hk
      simp [mapLookup] at h
      simp [h]
    · simp [mapLookup, hk] at h
      simp [ih h]

/-! ### Lemmas about the reaction fold -/

theorem foldReactions_nil (m : List (Nat × Int)) (n : Nat) :
    foldReactions m n [] = m := rfl

theorem foldReactions_cons (m : List (Nat × Int)) (n : Nat) (r : IssueReaction)
    (rs : List IssueReaction) :
    foldReactions m n (r :: rs) =
      foldReactions (mapInsertAdd m n (reactionWeight r.content)) n rs := rfl

theorem scoreOfReactions_nil : scoreOfReactions [] = 0 := rfl

theorem scoreOfReactions_cons (r : IssueReaction) (rs : List IssueReaction) :
    scoreOfReactions (r :: rs) = reactionWeight r.content + scoreOfReactions rs := by
  simp [scoreOfReactions]

theorem mapLookup_foldReactions_ne (m : List (Nat × Int)) (n a : Nat)
    (rs : List IssueReaction) (h : a ≠ n) :
    mapLookup (foldReactions m n rs) a = mapLookup m a := by
  induction rs generalizing m with
  | nil => rfl
  | cons r rs ih =>
    rw [foldReactions_cons, ih, mapLookup_mapInsertAdd_ne _ _ _ _ h]

theorem mapLookup_foldReactions_self (m : List (Nat × Int)) (n : Nat)
    (r : IssueReaction) (rs : List IssueReaction) :
    mapLookup (foldReactions m n (r :: rs)) n =
      some ((mapLookup m n).getD 0 + scoreOfReactions (r :: rs)) := by
  induction rs generalizing m r with
  | nil =>
    rw [foldReactions_cons, foldReactions_nil, mapLookup_mapInsertAdd_self,
      scoreOfReactions_cons, scoreOfReactions_nil]
    rw [add_zero]
  | cons r2 rs2 ih =>
    rw [foldReactions_cons, ih, mapLookup_mapInsertAdd_self]
    rw [scoreOfReactions_cons r (r2 :: rs2)]
    simp [add_assoc]

theorem mem_keys_foldReactions (m : List (Nat × Int)) (n a : Nat)
    (rs : List IssueReaction) :
    a ∈ (foldReactions m n rs).map Prod.fst ↔
      a ∈ m.map Prod.fst ∨ (a = n ∧ rs ≠ []) := by
  induction rs generalizing m with
  | nil => simp [foldReactions_nil]
  | cons r rs ih =>
    rw [foldReactions_cons, ih, mem_keys_mapInsertAdd]
    constructor
    · rintro ((hm | rfl) | ⟨rfl, hne⟩)
      · exact Or.inl hm
      · exact Or.inr ⟨rfl, by simp⟩
      · exact Or.inr ⟨rfl, by simp⟩
    · rintro (hm | ⟨rfl, hne⟩)
      · exact Or.inl (Or.inl hm)
      · exact Or.inl (Or.inr rfl)

theorem keys_nodup_foldReactions (m : List (Nat × Int)) (n : Nat)
    (rs : List IssueReaction) (h : (m.map Prod.fst).Nodup) :
    ((foldReactions m n rs).map Prod.fst).Nodup := by
  induction rs generalizing m with
  | nil => exact h
  | cons r rs ih =>
    rw [foldReactions_cons]
    exact ih _ (keys_nodup_mapInsertAdd _ _ _ h)

/-! ### Lemmas about the issue fold and the final score map -/

theorem foldIssues_nil (fetched : Nat → List IssueReaction) (m : List (Nat × Int)) :
    foldIssues fetched [] m = m := rfl

theorem foldIssues_cons (fetched : Nat → List IssueReaction) (i : Issue)
    (issues : List Issue) (m : List (Nat × Int)) :
    foldIssues fetched (i :: issues) m =
      foldIssues fetched issues (foldReactions m i.number (fetched i.number)) := rfl

theorem buildMap_eq_foldIssues (issues : List Issue) (fetched : Nat → List IssueReaction) :
    buildMap issues fetched = foldIssues fetched issues [] := rfl

theorem mapLookup_foldIssues_not_mem (fetched : Nat → List IssueReaction)
    (issues : List Issue) (m : List (Nat × Int)) (n : Nat)
    (h : ∀ i ∈ issues, i.number ≠ n) :
    mapLookup (foldIssues fetched issues m) n = mapLookup m n := by
  induction issues generalizing m with
  | nil => rfl
  | cons i issues ih =>
    rw [foldIssues_cons, ih _ fun j hj => h j (List.mem_cons_of_mem i hj)]
    exact mapLookup_foldReactions_ne _ _ _ _ fun hn =>
      h i (List.mem_cons_self i issues) hn.symm

theorem mem_keys_foldIssues (fetched : Nat → List IssueReaction)
    (issues : List Issue) (m : List (Nat × Int)) (a : Nat) :
    a ∈ (foldIssues fetched issues m).map Prod.fst ↔
      a ∈ m.map Prod.fst ∨ ∃ i ∈ issues, i.number = a ∧ fetched a ≠ [] := by
  induction issues generalizing m with
  | nil => simp [foldIssues_nil]
  | cons i issues ih =>
    rw [foldIssues_cons, ih, mem_keys_foldReactions]
    constructor
    · rintro (⟨hm | ⟨rfl, hne⟩⟩ | ⟨j, hj, rfl, hne⟩)
      · exact Or.inl hm
      · exact Or.inr ⟨i, List.mem_cons_self i issues, rfl, hne⟩
      · exact Or.inr ⟨j, List.mem_cons_of_mem i hj, rfl, hne⟩
    · rintro (hm | ⟨j, hj, rfl, hne⟩)
      · exact Or.inl (Or.inl hm)
      · rcases List.mem_cons.1 hj with rfl | hj
        · exact Or.inl (Or.inr ⟨rfl, hne⟩)
        · exact Or.inr ⟨j, hj, rfl, hne⟩

theorem keys_nodup_foldIssues (fetched : Nat → List IssueReaction)
    (issues : List Issue) (m : List (Nat × Int)) (h : (m.map Prod.fst).Nodup) :
    ((foldIssues fetched issues m).map Prod.fst).Nodup := by
  induction issues generalizing m with
  | nil => exact h
  | cons i issues ih =>
    rw [foldIssues_cons]
    exact ih _ (keys_nodup_foldReactions _ _ _ h)

theorem keys_nodup_buildMap (issues : List Issue) (fetched : Nat → List IssueReaction) :
    ((buildMap issues fetched).map Prod.fst).Nodup := by
  rw [buildMap_eq_foldIssues]
  exact keys_nodup_foldIssues _ _ _ (by simp)

theorem mem_keys_buildMap (issues : List Issue) (fetched : Nat → List IssueReaction)
    (a : Nat) :
    a ∈ (buildMap issues fetched).map Prod.fst ↔
      ∃ i ∈ issues, i.number = a ∧ fetched a ≠ [] := by
  rw [buildMap_eq_foldIssues, mem_keys_foldIssues]
  simp

theorem mapLookup_foldIssues_mem (fetched : Nat → List IssueReaction)
    (issues : List Issue) (m : List (Nat × Int)) (i : Issue)
    (hnodup : (issues.map Issue.number).Nodup) (hmem : i ∈ issues) :
    mapLookup (foldIssues fetched issues m) i.number =
      if fetched i.number = [] then mapLookup m i.number
      else some ((mapLookup m i.number).getD 0 + scoreOfReactions (fetched i.number)) := by
  induction issues generalizing m with
  | nil => cases hmem
  | cons j issues ih =>
    rw [List.map_cons, List.nodup_cons] at hnodup
    rcases List.mem_cons.1 hmem with rfl | hmem
    · rw [foldIssues_cons]
      have hnot : ∀ k ∈ issues, k.number ≠ i.number := by
        intro k hk he
        refine hnodup.1 ?_
        rw [← he]
        exact List.mem_map_of_mem Issue.number hk
      rw [mapLookup_foldIssues_not_mem _ _ _ _ hnot]
      rcases hrs : fetched i.number with _ | ⟨r, rs⟩
      · rw [if_pos rfl, foldReactions_nil]
      · rw [if_neg (by simp), mapLookup_foldReactions_self]
    · have hne : i.number ≠ j.number := by
        intro he
        refine hnodup.1 ?_
        rw [← he]
        exact List.mem_map_of_mem Issue.number hmem
      rw [foldIssues_cons, ih _ hnodup.2 hmem,
        mapLookup_foldReactions_ne _ _ _ _ hne]

theorem mapLookup_buildMap (issues : List Issue) (fetched : Nat → List IssueReaction)
    (i : Issue) (hnodup : (issues.map Issue.number).Nodup) (hmem : i ∈ issues) :
    mapLookup (buildMap issues fetched) i.number =
      if fetched i.number = [] then none
      else some (scoreOfReactions (fetched i.number)) := by
  rw [buildMap_eq_foldIssues, mapLookup_foldIssues_mem _ _ _ _ hnodup hmem]
  rcases hrs : fetched i.number with _ | ⟨r, rs⟩ <;> simp [mapLookup]

/-! ### The score equals the count of "+1" minus the count of "-1" -/

theorem scoreOfReactions_eq_counts (rs : List IssueReaction) :
    scoreOfReactions rs =
      ((rs.countP fun r => r.content == "+1") : Int) -
        ((rs.countP fun r => r.content == "-1") : Int) := by
  induction rs with
  | nil => simp [scoreOfReactions]
  | cons r rs ih =>
    rw [scoreOfReactions_cons, ih]
    by_cases h1 : r.content = "+1"
    · have h2 : r.content ≠ "-1" := by rw [h1]; decide
      simp [List.countP_cons, h1, h2, reactionWeight]
      omega
    · by_cases h2 : r.content = "-1"
      · simp [List.countP_cons, h1, h2, reactionWeight]
        omega
      · simp [List.countP_cons, h1, h2, reactionWeight]

theorem reactionWeight_eq_zero (content : String) (h1 : content ≠ "+1")
    (h2 : content ≠ "-1") : reactionWeight content = 0 := by
  simp [reactionWeight, h1, h2]

/-! ### Lemmas about the descending stable sort -/

theorem mem_insertDesc (x z : Nat × Int) (l : List (Nat × Int)) :
    z ∈ insertDesc x l ↔ z = x ∨ z ∈ l := by
  induction l with
  | nil => simp [insertDesc]
  | cons y ys ih =>
    by_cases h : y.2 ≤ x.2
    · simp [insertDesc, h]
    · simp [insertDesc, h, ih]
      tauto

theorem insertDesc_perm (x : Nat × Int) (l : List (Nat × Int)) :
    (insertDesc x l).Perm (x :: l) := by
  induction l with
  | nil => simp [insertDesc]
  | cons y ys ih =>
    by_cases h : y.2 ≤ x.2
    · simp [insertDesc, h]
    · rw [insertDesc, if_neg h]
      exact (ih.cons y).trans (List.Perm.swap x y ys)

theorem sortDesc_perm (l : List (Nat × Int)) : (sortDesc l).Perm l := by
  induction l with
  | nil => simp [sortDesc]
  | cons x xs ih =>
    have : sortDesc (x :: xs) = insertDesc x (sortDesc xs) := rfl
    rw [this]
    exact (insertDesc_perm x (sortDesc xs)).trans (ih.cons x)

theorem sorted_insertDesc (x : Nat × Int) (l : List (Nat × Int))
    (h : l.Pairwise fun a b => b.2 ≤ a.2) :
    (insertDesc x l).Pairwise fun a b => b.2 ≤ a.2 := by
  induction l with
  | nil => simp [insertDesc]
  | cons y ys ih =>
    rw [List.pairwise_cons] at h
    by_cases hle : y.2 ≤ x.2
    · rw [insertDesc, if_pos hle, List.pairwise_cons]
      refine ⟨?_, List.pairwise_cons.2 h⟩
      intro z hz
      rcases List.mem_cons.1 hz with rfl | hz
      · exact hle
      · exact le_trans (h.1 z hz) hle
    · rw [insertDesc, if_neg hle, List.pairwise_cons]
      refine ⟨?_, ih h.2⟩
      intro z hz
      rcases (mem_insertDesc x z ys).1 hz with rfl | hz
      · exact le_of_not_le hle
      · exact h.1 z hz

theorem sorted_sortDesc (l : List (Nat × Int)) :
    (sortDesc l).Pairwise fun a b => b.2 ≤ a.2 := by
  induction l with
  | nil => simp [sortDesc]
  | cons x xs ih => exact sorted_insertDesc x (sortDesc xs) ih

/-! ### Lemmas about the printed ranking lines -/

theorem rank_mem_rankLines (k p n : Nat) (s : Int) (l : List (Nat × Int)) :
    OutLine.rank p n s ∈ rankLines k l ↔
      ∃ idx : Nat, ∃ h : idx < l.length, p = k + idx ∧ l.get ⟨idx, h⟩ = (n, s) := by
  induction l generalizing k with
  | nil => simp [rankLines]
  | cons e rest ih =>
    rw [rankLines, List.mem_cons, ih]
    constructor
    · rintro (he | ⟨idx, hlt, rfl, hget⟩)
      · refine ⟨0, by simp, ?_⟩
        cases he
        exact ⟨rfl, rfl⟩
      · exact ⟨idx + 1, by simpa using hlt, by omega, hget⟩
    · rintro ⟨idx, hlt, rfl, hget⟩
      cases idx with
      | zero =>
        left
        obtain ⟨n1, s1⟩ := e
        cases hget
        simp
      | succ idx =>
        right
        exact ⟨idx, by simpa using hlt, by omega, hget⟩

theorem rank_mem_rankLines_of_mem (n : Nat) (s : Int) (l : List (Nat × Int))
    (h : (n, s) ∈ l) : ∃ p, OutLine.rank p n s ∈ rankLines 1 l := by
  rcases List.mem_iff_get.1 h with ⟨idx, hget⟩
  exact ⟨1 + idx.1, (rank_mem_rankLines 1 _ n s l).2 ⟨idx.1, idx.2, rfl, hget⟩⟩

theorem not_rank_mem_rankLines (n : Nat) (p : Nat) (s : Int) (l : List (Nat × Int))
    (h : n ∉ l.map Prod.fst) : OutLine.rank p n s ∉ rankLines 1 l := by
  intro hmem
  rcases (rank_mem_rankLines 1 p n s l).1 hmem with ⟨idx, hlt, _, hget⟩
  have hm := List.mem_map_of_mem Prod.fst (l.get_mem idx hlt)
  rw [hget] at hm
  exact h hm

/-! ### Computation lemmas for the two fetchers -/

theorem get_issues_success (w : World) (owner repo t : String) (st : Nat)
    (rl : Option HeaderVal) (l : List Issue) (htok : w.token = some t)
    (hresp : w.issuesResp = .ok st rl (some l)) (hst : statusIsSuccess st = true) :
    get_issues w owner repo =
      .ok [] [get_api_url owner repo] (l.filter fun i => i.pull_request.isNone) := by
  simp [get_issues, send_request, htok, hresp, hst]

theorem get_issues_transport (w : World) (owner repo t : String)
    (htok : w.token = some t) (hresp : w.issuesResp = .err) :
    get_issues w owner repo = .ok [] [get_api_url owner repo] [] := by
  simp [get_issues, send_request, htok, hresp]

theorem get_issues_decode_failure (w : World) (owner repo t : String) (st : Nat)
    (rl : Option HeaderVal) (htok : w.token = some t)
    (hresp : w.issuesResp = .ok st rl none) (hst : statusIsSuccess st = true) :
    get_issues w owner repo =
      .panic [] [get_api_url owner repo] "Something went wrong while parsing." := by
  simp [get_issues, send_request, htok, hresp, hst]

theorem get_issues_non2xx (w : World) (owner repo t : String) (st : Nat)
    (rl : Option HeaderVal) (body : Option (List Issue)) (htok : w.token = some t)
    (hresp : w.issuesResp = .ok st rl body) (hst : statusIsSuccess st = false) :
    get_issues w owner repo =
      issuesFailureResult w.now st rl [get_api_url owner repo] := by
  simp [get_issues, send_request, htok, hresp, hst]

theorem get_issues_no_token (w : World) (owner repo : String)
    (htok : w.token = none) :
    get_issues w owner repo = .panic [] [] "Missing GIHHUB_TOKEN" := by
  simp [get_issues, send_request, htok]

theorem get_reactions_failure (t : String) (i : Issue) (owner repo : String)
    (resp : SendResult (List IssueReaction))
    (hfail : (match resp with
      | .err => true
      | .ok st _ _ => !statusIsSuccess st) = true) :
    get_reactions (some t) i owner repo resp =
      .ok [] [reactions_url owner repo i.number] [] := by
  rcases resp with _ | ⟨st, rl, body⟩
  · simp [get_reactions, send_request]
  · simp only [Bool.not_eq_true'] at hfail
    simp [get_reactions, send_request, hfail]

theorem get_reactions_success (t : String) (i : Issue) (owner repo : String)
    (st : Nat) (rl : Option HeaderVal) (rs : List IssueReaction)
    (hst : statusIsSuccess st = true) :
    get_reactions (some t) i owner repo (.ok st rl (some rs)) =
      .ok [] [reactions_url owner repo i.number] rs := by
  simp [get_reactions, send_request, hst]

theorem get_reactions_decode_failure (t : String) (i : Issue) (owner repo : String)
    (st : Nat) (rl : Option HeaderVal) (hst : statusIsSuccess st = true) :
    get_reactions (some t) i owner repo (.ok st rl none) =
      .panic [] [reactions_url owner repo i.number]
        "Something went wrong while parsting issue reactions." := by
  simp [get_reactions, send_request, hst]

/-! ### No ranking line is ever printed before the final loop -/

theorem get_reactions_output (token : Option String) (i : Issue)
    (owner repo : String) (resp : SendResult (List IssueReaction)) :
    (get_reactions token i owner repo resp).output = [] := by
  rcases token with _ | t
  · rfl
  · rcases resp with _ | ⟨st, rl, body⟩
    · rfl
    · by_cases hst : statusIsSuccess st = true
      · rcases body with _ | rs
        · simp [get_reactions, send_request, hst, Res.output]
        · simp [get_reactions, send_request, hst, Res.output]
      · simp [get_reactions, send_request, Bool.eq_false_iff.2 hst, Res.output]

theorem issuesFailureResult_no_rank (now : Int) (st : Nat) (rl : Option HeaderVal)
    (reqs : List String) :
    ∀ e ∈ (issuesFailureResult now st rl reqs).output, e.isRank = false := by
  rcases rl with _ | hv
  · intro e he
    simp [issuesFailureResult, Res.output] at he
    simp [he, OutLine.isRank]
  · rcases hv with _ | s
    · intro e he
      simp [issuesFailureResult, Res.output] at he
      rcases he with rfl | rfl <;> rfl
    · intro e he
      rcases hp : parseI64 s with _ | ts
      · simp [issuesFailureResult, hp, Res.output] at he
        simp [he, OutLine.isRank]
      · by_cases hr : tsInChronoRange ts = true
        · simp [issuesFailureResult, hp, hr, Res.output] at he
          rcases he with rfl | rfl <;> rfl
        · simp [issuesFailureResult, hp, Bool.eq_false_iff.2 hr, Res.output] at he
          simp [he, OutLine.isRank]

theorem get_issues_no_rank (w : World) (owner repo : String) :
    ∀ e ∈ (get_issues w owner repo).output, e.isRank = false := by
  rcases htok : w.token with _ | t
  · rw [get_issues_no_token w owner repo htok]
    intro e he
    cases he
  · rcases hresp : w.issuesResp with _ | ⟨st, rl, body⟩
    · rw [get_issues_transport w owner repo t htok hresp]
      intro e he
      cases he
    · by_cases hst : statusIsSuccess st = true
      · rcases body with _ | l
        · rw [get_issues_decode_failure w owner repo t st rl htok hresp hst]
          intro e he
          cases he
        · rw [get_issues_success w owner repo t st rl l htok hresp hst]
          intro e he
          cases he
      · rw [get_issues_non2xx w owner repo t st rl body htok hresp
          (Bool.eq_false_iff.2 hst)]
        exact issuesFailureResult_no_rank w.now st rl _

theorem processIssues_no_rank (w : World) (owner repo : String)
    (issues : List Issue) (out : List OutLine) (reqs : List String)
    (m : List (Nat × Int)) (hout : ∀ e ∈ out, e.isRank = false) :
    ∀ e ∈ (processIssues w owner repo issues out reqs m).output, e.isRank = false := by
  induction issues generalizing out reqs m with
  | nil => exact hout
  | cons i rest ih =>
    have hout2 : ∀ e ∈ out ++ [OutLine.gathering i.number], e.isRank = false := by
      intro e he
      rcases List.mem_append.1 he with he | he
      · exact hout e he
      · rcases List.mem_singleton.1 he with rfl
        rfl
    rw [processIssues]
    rcases hr : get_reactions w.token i owner repo (w.reactionsResp i.number)
      with ⟨o, r, reactions⟩ | ⟨o, r, msg⟩
    · have ho : o = [] := by
        have := get_reactions_output w.token i owner repo (w.reactionsResp i.number)
        rw [hr] at this
        exact this
      subst ho
      exact ih _ _ _ (by simpa using hout2)
    · have ho : o = [] := by
        have := get_reactions_output w.token i owner repo (w.reactionsResp i.number)
        rw [hr] at this
        exact this
      subst ho
      simpa [Res.output] using hout2

/-! ### Rust i64 division by 60: positivity threshold -/

theorem tdiv60_pos (d : Int) (h : 60 ≤ d) : 0 < d.tdiv 60 := by
  cases d with
  | ofNat k =>
    have h2 : (60 : Int) ≤ (k : Int) := h
    show (0 : Int) < ((k / 60 : Nat) : Int)
    have hk : 60 ≤ k := by omega
    have hpos : 0 < k / 60 := Nat.div_pos hk (by omega)
    omega
  | negSucc k =>
    rw [Int.negSucc_eq] at h
    exact absurd h (by omega)

theorem tdiv60_nonpos (d : Int) (h : d < 60) : d.tdiv 60 ≤ 0 := by
  cases d with
  | ofNat k =>
    have h2 : (k : Int) < 60 := h
    show ((k / 60 : Nat) : Int) ≤ 0
    have hk : k < 60 := by omega
    rw [Nat.div_eq_of_lt hk]
    simp
  | negSucc k =>
    show -((Nat.succ k / 60 : Nat) : Int) ≤ 0
    omega

/-! ### Claim C1: per-issue score is the "+1" count minus the "-1" count -/

/-- **C1.** For every issue (with the repository's issue numbers pairwise
distinct, as the data model guarantees) whose fetched reaction list is
nonempty, the final score recorded for its number equals the number of
reactions whose content is exactly "+1" minus the number whose content is
exactly "-1"; and any reaction content outside {"+1", "-1"} has weight
exactly 0. -/
theorem claim_C1 (issues : List Issue) (fetched : Nat → List IssueReaction)
    (i : Issue) (r : IssueReaction) (hmem : i ∈ issues)
    (hnodup : (issues.map Issue.number).Nodup) (hne : fetched i.number ≠ []) :
    mapLookup (buildMap issues fetched) i.number =
      some ((((fetched i.number).countP fun x => x.content == "+1") : Int) -
        (((fetched i.number).countP fun x => x.content == "-1") : Int))
    ∧ (r.content ≠ "+1" → r.content ≠ "-1" → reactionWeight r.content = 0) := by
  constructor
  · rw [mapLookup_buildMap issues fetched i hnodup hmem, if_neg hne,
      scoreOfReactions_eq_counts]
  · intro h1 h2
    exact reactionWeight_eq_zero r.content h1 h2

theorem claim_C1_witness :
    mapLookup (buildMap issuesAgg reactionsAgg) 1 = some ((2 : Int) - (1 : Int))
    ∧ (("laugh" : String) ≠ "+1" → ("laugh" : String) ≠ "-1" →
        reactionWeight "laugh" = 0) :=
  claim_C1 issuesAgg reactionsAgg ⟨1, "alpha", none⟩ ⟨"laugh"⟩
    (by decide) (by decide) (by decide)

/-! ### Claim C2: the printed ranking is non-increasing in score -/

/-- **C2.** In any completed run, if ranking lines for positions `p1 < p2`
are printed, then the score printed at position `p1` is at least the score
printed at position `p2`. -/
theorem claim_C2 (w : World) (shuffle : List (Nat × Int) → List (Nat × Int))
    (out : List OutLine) (reqs : List String)
    (p1 n1 p2 n2 : Nat) (s1 s2 : Int)
    (hrun : mainRun w shuffle = .ok out reqs ())
    (h1 : OutLine.rank p1 n1 s1 ∈ out) (h2 : OutLine.rank p2 n2 s2 ∈ out)
    (hp : p1 < p2) : s2 ≤ s1 := by
  simp only [mainRun] at hrun
  rcases hgi : get_issues w "angular" "angular" with ⟨o, r, issues⟩ | ⟨o, r, msg⟩
  · simp only [hgi] at hrun
    rcases hpi : processIssues w "angular" "angular" issues
        (o ++ [OutLine.fetched issues.length]) r [] with ⟨o3, r3, m⟩ | ⟨o3, r3, msg3⟩
    · simp only [hpi] at hrun
      have hno : ∀ e ∈ o3, e.isRank = false := by
        have hin : ∀ e ∈ o ++ [OutLine.fetched issues.length], e.isRank = false := by
          intro e he
          rcases List.mem_append.1 he with he | he
          · have := get_issues_no_rank w "angular" "angular"
            rw [hgi] at this
            exact this e he
          · rcases List.mem_singleton.1 he with rfl
            rfl
        have := processIssues_no_rank w "angular" "angular" issues
          (o ++ [OutLine.fetched issues.length]) r [] hin
        rw [hpi] at this
        exact this
      have hout : out = o3 ++ [OutLine.blank] ++ rankLines 1 (sortDesc (shuffle m)) := by
        injection hrun with ha hb hc
        exact ha.symm
      subst hout
      have hmem : ∀ p n s, OutLine.rank p n s ∈
          o3 ++ [OutLine.blank] ++ rankLines 1 (sortDesc (shuffle m)) →
          OutLine.rank p n s ∈ rankLines 1 (sortDesc (shuffle m)) := by
        intro p n s hmem
        rcases List.mem_append.1 hmem with hmem | hmem
        · rcases List.mem_append.1 hmem with hmem | hmem
          · exact absurd (hno _ hmem) (by simp [OutLine.isRank])
          · simp at hmem
        · exact hmem
      rcases (rank_mem_rankLines 1 p1 n1 s1 _).1 (hmem _ _ _ h1) with
        ⟨idx1, hlt1, hp1, hget1⟩
      rcases (rank_mem_rankLines 1 p2 n2 s2 _).1 (hmem _ _ _ h2) with
        ⟨idx2, hlt2, hp2, hget2⟩
      have hidx : idx1 < idx2 := by omega
      have hs := (List.pairwise_iff_get.1 (sorted_sortDesc (shuffle m)))
        ⟨idx1, hlt1⟩ ⟨idx2, hlt2⟩ hidx
      rw [hget1, hget2] at hs
      exact hs
    · simp only [hpi] at hrun
      exact Res.noConfusion hrun
  · simp only [hgi] at hrun
    exact Res.noConfusion hrun

theorem claim_C2_witness : (1 : Int) ≤ 2 :=
  claim_C2 wScores id
    [.fetched 2, .gathering 1, .gathering 2, .blank, .rank 1 2 2, .rank 2 1 1]
    [get_api_url "angular" "angular", reactions_url "angular" "angular" 1,
      reactions_url "angular" "angular" 2]
    1 2 2 1 2 1 (by decide) (by decide) (by decide) (by decide)

/-! ### Claim C3: empty fetch means omission, zero-sum fetch means a 0-score line -/

/-- **C3.** Over the accumulated score map and the printed ranking (for any
iteration order `v` of the map): an issue whose fetched reaction list is
empty has no entry and no ranking line; an issue (numbers pairwise
distinct) with a nonempty fetched reaction list whose weights sum to zero
has an entry of score 0 and a ranking line at some position. -/
theorem claim_C3 (issues : List Issue) (fetched : Nat → List IssueReaction)
    (v : List (Nat × Int)) (i : Issue) (p : Nat) (s : Int)
    (hperm : v.Perm (buildMap issues fetched)) (hmem : i ∈ issues)
    (hnodup : (issues.map Issue.number).Nodup) :
    (fetched i.number = [] →
      mapLookup (buildMap issues fetched) i.number = none ∧
      OutLine.rank p i.number s ∉ rankLines 1 (sortDesc v))
    ∧ (fetched i.number ≠ [] → scoreOfReactions (fetched i.number) = 0 →
      mapLookup (buildMap issues fetched) i.number = some 0 ∧
      ∃ q, OutLine.rank q i.number 0 ∈ rankLines 1 (sortDesc v)) := by
  constructor
  · intro hempty
    have hkeys : i.number ∉ (buildMap issues fetched).map Prod.fst := by
      rw [mem_keys_buildMap]
      rintro ⟨j, hj, hnum, hne⟩
      rw [hempty] at hne
      exact hne rfl
    refine ⟨(mapLookup_eq_none_iff _ _).2 hkeys, ?_⟩
    refine not_rank_mem_rankLines i.number p s (sortDesc v) ?_
    intro hmemk
    refine hkeys ?_
    have hkp : ((sortDesc v).map Prod.fst).Perm ((buildMap issues fetched).map Prod.fst) :=
      ((sortDesc_perm v).map Prod.fst).trans (hperm.map Prod.fst)
    exact hkp.mem_iff.1 hmemk
  · intro hne hzero
    have hlook : mapLookup (buildMap issues fetched) i.number = some 0 := by
      rw [mapLookup_buildMap issues fetched i hnodup hmem, if_neg hne, hzero]
    refine ⟨hlook, ?_⟩
    have hin : (i.number, 0) ∈ sortDesc v :=
      (sortDesc_perm v).mem_iff.2 (hperm.mem_iff.2
        (mem_of_mapLookup_eq_some _ _ _ hlook))
    exact rank_mem_rankLines_of_mem i.number 0 (sortDesc v) hin

theorem claim_C3_witness :
    (mapLookup (buildMap issuesAgg reactionsAgg) 2 = none ∧
      OutLine.rank 1 2 0 ∉ rankLines 1 (sortDesc [((3 : Nat), (0 : Int)), (1, 1)]))
    ∧ (mapLookup (buildMap issuesAgg reactionsAgg) 3 = some 0 ∧
      ∃ q, OutLine.rank q 3 0 ∈ rankLines 1 (sortDesc [((3 : Nat), (0 : Int)), (1, 1)])) :=
  ⟨(claim_C3 issuesAgg reactionsAgg [((3 : Nat), (0 : Int)), (1, 1)]
      ⟨2, "beta", none⟩ 1 0 (by decide) (by decide) (by decide)).1 (by decide),
   (claim_C3 issuesAgg reactionsAgg [((3 : Nat), (0 : Int)), (1, 1)]
      ⟨3, "gamma", none⟩ 1 0 (by decide) (by decide) (by decide)).2
      (by decide) (by decide)⟩

/-! ### Claim C10: one ranking line per distinct issue number -/

/-- **C10.** For any iteration order `v` of the accumulated score map (no
distinctness assumed on the fetched issue records, so duplicate numbers
accumulate into one entry): the printed entries carry pairwise-distinct
issue numbers, and a number appears exactly when some fetched issue record
carries it and its fetched reaction list is nonempty. -/
theorem claim_C10 (issues : List Issue) (fetched : Nat → List IssueReaction)
    (v : List (Nat × Int)) (n : Nat)
    (hperm : v.Perm (buildMap issues fetched)) :
    ((sortDesc v).map Prod.fst).Nodup
    ∧ (n ∈ (sortDesc v).map Prod.fst ↔
        (∃ i ∈ issues, i.number = n) ∧ fetched n ≠ []) := by
  have hkp : ((sortDesc v).map Prod.fst).Perm ((buildMap issues fetched).map Prod.fst) :=
    ((sortDesc_perm v).map Prod.fst).trans (hperm.map Prod.fst)
  constructor
  · exact hkp.nodup_iff.2 (keys_nodup_buildMap issues fetched)
  · rw [hkp.mem_iff, mem_keys_buildMap]
    constructor
    · rintro ⟨i, hi, rfl, hne⟩
      exact ⟨⟨i, hi, rfl⟩, hne⟩
    · rintro ⟨⟨i, hi, rfl⟩, hne⟩
      exact ⟨i, hi, rfl, hne⟩

theorem claim_C10_witness :
    ((sortDesc [((4 : Nat), (-1 : Int)), (1, 2)]).map Prod.fst).Nodup
    ∧ (1 ∈ (sortDesc [((4 : Nat), (-1 : Int)), (1, 2)]).map Prod.fst ↔
        (∃ i ∈ issuesDup, i.number = 1) ∧ reactionsDup 1 ≠ []) :=
  claim_C10 issuesDup reactionsDup [((4 : Nat), (-1 : Int)), (1, 2)] 1 (by decide)

/-! ### Claim C4: the Lister drops exactly the pull requests, keeping order -/

/-- **C4.** When the issues endpoint answers 2xx with a decodable body `l`,
the list the Lister returns is a sublist of `l` (order received is kept),
every returned record has its pull-request marker absent, and every record
of `l` without the marker is returned. -/
theorem claim_C4 (w : World) (owner repo t : String) (st : Nat)
    (rl : Option HeaderVal) (l result : List Issue) (out : List OutLine)
    (reqs : List String) (htok : w.token = some t)
    (hresp : w.issuesResp = .ok st rl (some l)) (hst : statusIsSuccess st = true)
    (hrun : get_issues w owner repo = .ok out reqs result) :
    result.Sublist l
    ∧ (∀ i ∈ result, i.pull_request = none)
    ∧ (∀ i ∈ l, i.pull_request = none → i ∈ result) := by
  have heq := get_issues_success w owner repo t st rl l htok hresp hst
  rw [hrun] at heq
  injection heq with ha hb hc
  subst hc
  refine ⟨List.filter_sublist l, ?_, ?_⟩
  · intro i hi
    have := (List.mem_filter.1 hi).2
    simpa [Option.isNone_iff_eq_none] using this
  · intro i hi hnone
    exact List.mem_filter.2 ⟨hi, by simp [hnone]⟩

theorem claim_C4_witness :
    ([⟨1, "alpha", none⟩] : List Issue).Sublist
        [⟨1, "alpha", none⟩, ⟨2, "beta", some ()⟩]
    ∧ (∀ i ∈ ([⟨1, "alpha", none⟩] : List Issue), i.pull_request = none)
    ∧ (∀ i ∈ ([⟨1, "alpha", none⟩, ⟨2, "beta", some ()⟩] : List Issue),
        i.pull_request = none → i ∈ ([⟨1, "alpha", none⟩] : List Issue)) :=
  claim_C4 wWithPR "angular" "angular" "token" 200 none
    [⟨1, "alpha", none⟩, ⟨2, "beta", some ()⟩] [⟨1, "alpha", none⟩]
    [] [get_api_url "angular" "angular"] rfl rfl (by decide) (by decide)

/-! ### Claim C5: non-2xx on the issues endpoint -/

/-- **C5 counterexample.** A 403 response on the issues endpoint whose
`x-ratelimit-reset` header is absent makes the Lister panic (the `expect`
on the header) instead of returning an empty list: the run terminates. -/
theorem claim_C5_counterexample :
    get_issues wNoHeader "angular" "angular" =
      .panic [.exited 403] [get_api_url "angular" "angular"]
        "Unable to retrive the unix time remaining" := by decide

/-- **C5 amended.** A transport failure on the issues endpoint yields the
empty list and the run continues; so does a non-2xx response whose
rate-limit header is present (whether its bytes are not a valid string, or
parse to an in-range timestamp); but a non-2xx response *without* the
header terminates the run with a panic. -/
theorem claim_C5_amended (w : World) (owner repo t : String)
    (htok : w.token = some t) :
    (w.issuesResp = .err →
      get_issues w owner repo = .ok [] [get_api_url owner repo] [])
    ∧ (∀ st body, w.issuesResp = .ok st none body → statusIsSuccess st = false →
      get_issues w owner repo = .panic [.exited st] [get_api_url owner repo]
        "Unable to retrive the unix time remaining")
    ∧ (∀ st body, w.issuesResp = .ok st (some .invalid) body →
      statusIsSuccess st = false →
      get_issues w owner repo =
        .ok [.exited st, .please "in sometime"] [get_api_url owner repo] [])
    ∧ (∀ st s ts body, w.issuesResp = .ok st (some (.val s)) body →
      statusIsSuccess st = false → parseI64 s = some ts →
      tsInChronoRange ts = true →
      get_issues w owner repo =
        .ok [.exited st, .please (waitEstimate w.now ts)]
          [get_api_url owner repo] []) := by
  refine ⟨?_, ?_, ?_, ?_⟩
  · intro hresp
    exact get_issues_transport w owner repo t htok hresp
  · intro st body hresp hst
    rw [get_issues_non2xx w owner repo t st none body htok hresp hst]
    rfl
  · intro st body hresp hst
    rw [get_issues_non2xx w owner repo t st (some .invalid) body htok hresp hst]
    rfl
  · intro st s ts body hresp hst hparse hrange
    rw [get_issues_non2xx w owner repo t st (some (.val s)) body htok hresp hst]
    simp [issuesFailureResult, hparse, hrange]

theorem claim_C5_amended_witness :
    get_issues wTransportErr "angular" "angular" =
      .ok [] [get_api_url "angular" "angular"] [] :=
  (claim_C5_amended wTransportErr "angular" "angular" "token" rfl).1 rfl

/-! ### Claim C6: fatal decode failures and missing credential -/

/-- **C6.** A missing credential terminates the run before any HTTP request
with nothing printed; a 2xx issues body that fails to decode terminates the
run with the parsing diagnostic; a 2xx reactions body that fails to decode
(for the first listed issue) terminates the run with the reactions parsing
diagnostic; and no panic output ever contains a ranking line. -/
theorem claim_C6 (w : World) (shuffle : List (Nat × Int) → List (Nat × Int)) :
    (w.token = none → mainRun w shuffle = .panic [] [] "Missing GIHHUB_TOKEN")
    ∧ (∀ t st rl, w.token = some t → w.issuesResp = .ok st rl none →
      statusIsSuccess st = true →
      mainRun w shuffle = .panic [] [get_api_url "angular" "angular"]
        "Something went wrong while parsing.")
    ∧ (∀ t st rl l i rest st2 rl2, w.token = some t →
      w.issuesResp = .ok st rl (some l) → statusIsSuccess st = true →
      l.filter (fun x => x.pull_request.isNone) = i :: rest →
      w.reactionsResp i.number = .ok st2 rl2 none → statusIsSuccess st2 = true →
      mainRun w shuffle = .panic
        [OutLine.fetched (i :: rest).length, OutLine.gathering i.number]
        [get_api_url "angular" "angular", reactions_url "angular" "angular" i.number]
        "Something went wrong while parsting issue reactions.")
    ∧ (∀ out reqs msg, mainRun w shuffle = .panic out reqs msg →
      ∀ e ∈ out, e.isRank = false) := by
  refine ⟨?_, ?_, ?_, ?_⟩
  · intro htok
    simp only [mainRun, get_issues_no_token w "angular" "angular" htok]
  · intro t st rl htok hresp hst
    simp only [mainRun,
      get_issues_decode_failure w "angular" "angular" t st rl htok hresp hst]
  · intro t st rl l i rest st2 rl2 htok hresp hst hfilter hreact hst2
    simp only [mainRun,
      get_issues_success w "angular" "angular" t st rl l htok hresp hst, hfilter,
      processIssues, htok, hreact,
      get_reactions_decode_failure t i "angular" "angular" st2 rl2 hst2]
    simp
  · intro out reqs msg h
    simp only [mainRun] at h
    rcases hgi : get_issues w "angular" "angular" with ⟨o, r, issues⟩ | ⟨o, r, m2⟩
    · simp only [hgi] at h
      rcases hpi : processIssues w "angular" "angular" issues
          (o ++ [OutLine.fetched issues.length]) r [] with ⟨o3, r3, m⟩ | ⟨o3, r3, msg3⟩
      · simp only [hpi] at h
        exact Res.noConfusion h
      · simp only [hpi] at h
        injection h with ha hb hc
        subst ha
        have hin : ∀ e ∈ o ++ [OutLine.fetched issues.length], e.isRank = false := by
          intro e he
          rcases List.mem_append.1 he with he | he
          · have := get_issues_no_rank w "angular" "angular"
            rw [hgi] at this
            exact this e he
          · rcases List.mem_singleton.1 he with rfl
            rfl
        have := processIssues_no_rank w "angular" "angular" issues
          (o ++ [OutLine.fetched issues.length]) r [] hin
        rw [hpi] at this
        exact this
    · simp only [hgi] at h
      injection h with ha hb hc
      subst ha
      have := get_issues_no_rank w "angular" "angular"
      rw [hgi] at this
      exact this

theorem claim_C6_witness :
    mainRun wNoToken id = .panic [] [] "Missing GIHHUB_TOKEN" :=
  (claim_C6 wNoToken id).1 rfl

/-! ### Claim C7: reactions-endpoint failure is silent, not logged -/

/-- **C7 counterexample.** With one issue whose reactions request is
rejected with a 500 status, the complete console output of the run is the
fetch count, the routine progress line and the blank line: no line about
the failure is printed, contradicting "the failure is logged to the
console". -/
theorem claim_C7_counterexample :
    mainRun wReactFail id =
      .ok [.fetched 1, .gathering 1, .blank]
        [get_api_url "angular" "angular", reactions_url "angular" "angular" 1]
        () := by decide

/-- **C7 amended.** A non-2xx status or transport failure on the reactions
endpoint makes the Reaction Fetcher return the empty list with *nothing
printed* (the failure is not logged), and folding that empty list leaves
the score map unchanged, so all other issues' scores are unaffected and the
run continues. -/
theorem claim_C7_amended (t : String) (i : Issue) (owner repo : String)
    (resp : SendResult (List IssueReaction)) (m : List (Nat × Int))
    (hfail : resp = .err ∨ ∃ st rl body, resp = .ok st rl body ∧
      statusIsSuccess st = false) :
    get_reactions (some t) i owner repo resp =
      .ok [] [reactions_url owner repo i.number] []
    ∧ foldReactions m i.number [] = m := by
  refine ⟨?_, foldReactions_nil m i.number⟩
  rcases hfail with rfl | ⟨st, rl, body, rfl, hst⟩
  · exact get_reactions_failure t i owner repo .err rfl
  · exact get_reactions_failure t i owner repo (.ok st rl body) (by simp [hst])

theorem claim_C7_amended_witness :
    get_reactions (some "token") ⟨1, "alpha", none⟩ "angular" "angular"
        (.ok 500 none (some [])) =
      .ok [] [reactions_url "angular" "angular" 1] []
    ∧ foldReactions [((5 : Nat), (3 : Int))] 1 [] = [((5 : Nat), (3 : Int))] :=
  claim_C7_amended "token" ⟨1, "alpha", none⟩ "angular" "angular"
    (.ok 500 none (some [])) [((5 : Nat), (3 : Int))]
    (Or.inr ⟨500, none, some [], rfl, by decide⟩)

/-! ### Claim C8: two runs need not print an identical ranked list -/

/-- **C8 counterexample.** With two issues tied at score 1, the map's
entries are `[(1, 1), (2, 1)]`; both the identity order and the reversed
order are iteration orders the hash map may produce (the reversal is a
permutation of the entries), yet the two runs print different ranked lists:
the stable sort keeps tied entries in iteration order, which
`HashMap::iter` randomizes per process. -/
theorem claim_C8_counterexample :
    (List.reverse (buildMap issuesTie reactionsOnePlus)).Perm
        (buildMap issuesTie reactionsOnePlus)
    ∧ mainRun wTie id =
      .ok [.fetched 2, .gathering 1, .gathering 2, .blank, .rank 1 1 1, .rank 2 2 1]
        [get_api_url "angular" "angular", reactions_url "angular" "angular" 1,
          reactions_url "angular" "angular" 2] ()
    ∧ mainRun wTie List.reverse =
      .ok [.fetched 2, .gathering 1, .gathering 2, .blank, .rank 1 2 1, .rank 2 1 1]
        [get_api_url "angular" "angular", reactions_url "angular" "angular" 1,
          reactions_url "angular" "angular" 2] ()
    ∧ mainRun wTie id ≠ mainRun wTie List.reverse := by
  exact ⟨by decide, by decide, by decide, by decide⟩

/-- **C8 amended.** For a fixed captured input, any two runs (any two
iteration orders of the same accumulated score map) print rankings that are
permutations of each other and carry the identical sequence of scores by
position; the lists themselves coincide only up to the order of tied
entries. -/
theorem claim_C8_amended (issues : List Issue) (fetched : Nat → List IssueReaction)
    (v1 v2 : List (Nat × Int)) (h1 : v1.Perm (buildMap issues fetched))
    (h2 : v2.Perm (buildMap issues fetched)) :
    (sortDesc v1).Perm (sortDesc v2)
    ∧ (sortDesc v1).map Prod.snd = (sortDesc v2).map Prod.snd := by
  have hperm : (sortDesc v1).Perm (sortDesc v2) :=
    (sortDesc_perm v1).trans (h1.trans (h2.symm.trans (sortDesc_perm v2).symm))
  refine ⟨hperm, ?_⟩
  refine @List.eq_of_perm_of_sorted Int (fun a b => b ≤ a)
    ⟨fun a b hab hba => le_antisymm hba hab⟩ _ _ (hperm.map Prod.snd) ?_ ?_
  · exact List.pairwise_map.2 (sorted_sortDesc v1)
  · exact List.pairwise_map.2 (sorted_sortDesc v2)

theorem claim_C8_amended_witness :
    (sortDesc [((1 : Nat), (1 : Int)), (2, 1)]).Perm
        (sortDesc [((2 : Nat), (1 : Int)), (1, 1)])
    ∧ (sortDesc [((1 : Nat), (1 : Int)), (2, 1)]).map Prod.snd =
        (sortDesc [((2 : Nat), (1 : Int)), (1, 1)]).map Prod.snd :=
  claim_C8_amended issuesTie reactionsOnePlus
    [((1 : Nat), (1 : Int)), (2, 1)] [((2 : Nat), (1 : Int)), (1, 1)]
    (by decide) (by decide)

/-! ### Claim C9: the wait estimate is printed only on the issues endpoint -/

/-- **C9 counterexample.** The single issue's reactions request fails with
403 and the `x-ratelimit-reset` header present and well formed, yet the
complete output of the run contains no wait-estimate line: the reactions
endpoint never prints one, contradicting "to either endpoint". -/
theorem claim_C9_counterexample :
    mainRun wReactRateLimited id =
      .ok [.fetched 1, .gathering 1, .blank]
        [get_api_url "angular" "angular", reactions_url "angular" "angular" 1]
        () := by decide

/-- **C9 amended.** On the *issues* endpoint, a failed request whose reset
header is present with a value parsing to an in-range timestamp makes the
program print the human-readable estimate before giving up — in minutes
when at least one minute remains until the reset, else in seconds; the
*reactions* endpoint prints nothing, whatever its response. -/
theorem claim_C9_amended (w : World) (t owner repo s : String) (st : Nat)
    (ts : Int) (body : Option (List Issue)) (token2 : Option String) (i : Issue)
    (resp2 : SendResult (List IssueReaction))
    (htok : w.token = some t)
    (hresp : w.issuesResp = .ok st (some (.val s)) body)
    (hst : statusIsSuccess st = false)
    (hparse : parseI64 s = some ts)
    (hrange : tsInChronoRange ts = true) :
    get_issues w owner repo =
      .ok [.exited st, .please (waitEstimate w.now ts)] [get_api_url owner repo] []
    ∧ (60 ≤ ts - w.now → waitEstimate w.now ts = minutesMsg ((ts - w.now).tdiv 60))
    ∧ (ts - w.now < 60 → waitEstimate w.now ts = secondsMsg (ts - w.now))
    ∧ (get_reactions token2 i owner repo resp2).output = [] := by
  refine ⟨?_, ?_, ?_, get_reactions_output token2 i owner repo resp2⟩
  · rw [get_issues_non2xx w owner repo t st (some (.val s)) body htok hresp hst]
    simp [issuesFailureResult, hparse, hrange]
  · intro h
    simp only [waitEstimate]
    rw [if_pos (tdiv60_pos (ts - w.now) h)]
  · intro h
    have hnp := tdiv60_nonpos (ts - w.now) h
    simp only [waitEstimate]
    rw [if_neg (by omega)]

theorem claim_C9_amended_witness :
    (get_issues wRateLimited "angular" "angular" =
      .ok [.exited 403, .please (waitEstimate 0 120)]
        [get_api_url "angular" "angular"] []
    ∧ (60 ≤ (120 : Int) - 0 →
        waitEstimate 0 120 = minutesMsg (((120 : Int) - 0).tdiv 60))
    ∧ ((120 : Int) - 0 < 60 → waitEstimate 0 120 = secondsMsg ((120 : Int) - 0))
    ∧ (get_reactions (some "token") ⟨1, "alpha", none⟩ "angular" "angular"
        .err).output = []) :=
  claim_C9_amended wRateLimited "token" "angular" "angular" "120" 403 120
    (some []) (some "token") ⟨1, "alpha", none⟩ .err
    rfl rfl (by decide) (by decide) (by decide)
